import Mathlib

/-!
Verification of the printer state-reconciliation engine and the PPD
capability cache of the cups-connector repository.

The reconciliation engine (`DiffPrinters`, `diffPrinter`, `GetHostname`,
package `lib`) is embedded from `src/unnamed/part_000`; the capability
cache (`getPPDCacheEntry`, `refresh`, package `cups`) is embedded from
`src/cups/ppdcache.go`.  Go machine types are modelled as follows:
`string` as `String`, `map[string]string` as an association list
`List (String × String)` (Go maps have unique keys; lookup is the first
match), slices as `List`, pointers to comparably-equal records as
`Option` of a record type, and Go's `panic` as the `.error` branch of an
`Except` result.
-/

/-- Modelled from the spec: `cdd.PrinterStateSection` is defined in the
repository's `cdd` package, which is not part of the sources given here.
The spec describes it as "a structured state section … a nested,
comparably-equal record"; only (deep) equality of values matters to the
reconciliation engine, so it is modelled as an opaque comparably-equal
wrapper of its serialized contents. -/
structure PrinterStateSection where
  val : String
deriving DecidableEq, Repr

/-- Modelled from the spec: `cdd.PrinterDescriptionSection`, the structured
description section ("a nested, comparably-equal record"), modelled like
`PrinterStateSection` as an opaque comparably-equal record. -/
structure PrinterDescriptionSection where
  val : String
deriving DecidableEq, Repr

/-- Modelled from the spec: the job-admission limiter (`*lib.Semaphore`),
out of scope per the spec ("must be preserved across re-diffing the same
printer, not recreated"); only the identity of the handle matters, so it
is modelled as an opaque comparably-equal value. -/
structure Semaphore where
  id : Nat
deriving DecidableEq, Repr

/-- `lib.Printer` (src/unnamed/part_000 lines 21–38): a snapshot of one
printer. `State` and `Description` are pointer fields in Go (`nil` or a
record compared with `reflect.DeepEqual`), hence `Option` here. -/
structure Printer where
  GCPID              : String
  Name               : String
  DefaultDisplayName : String
  UUID               : String
  Manufacturer       : String
  Model              : String
  GCPVersion         : String
  SetupURL           : String
  SupportURL         : String
  UpdateURL          : String
  ConnectorVersion   : String
  State              : Option PrinterStateSection
  Description        : Option PrinterDescriptionSection
  CapsHash           : String
  Tags               : List (String × String)
  CUPSJobSemaphore   : Option Semaphore
deriving DecidableEq, Repr

/-- Lookup in a Go `map[string]string` modelled as an association list:
`v, ok := m[k]` returns `some v` iff the key is present. -/
def tagsLookup (tags : List (String × String)) (k : String) : Option String :=
  (tags.find? (fun kv => kv.1 == k)).map (fun kv => kv.2)

/-- `lib.PrinterDiffOperation` (src/unnamed/part_000 lines 58–65). -/
inductive PrinterDiffOperation where
  | RegisterPrinter
  | UpdatePrinter
  | DeletePrinter
  | NoChangeToPrinter
deriving DecidableEq, Repr

export PrinterDiffOperation (RegisterPrinter UpdatePrinter DeletePrinter NoChangeToPrinter)

/-- `lib.PrinterDiff` (src/unnamed/part_000 lines 68–84).  The boolean
flags default to `false`, matching Go's zero value for omitted fields in
a struct literal. -/
structure PrinterDiff where
  Operation : PrinterDiffOperation
  Printer   : Printer
  DefaultDisplayNameChanged : Bool := false
  ManufacturerChanged       : Bool := false
  ModelChanged              : Bool := false
  GCPVersionChanged         : Bool := false
  SetupURLChanged           : Bool := false
  SupportURLChanged         : Bool := false
  UpdateURLChanged          : Bool := false
  ConnectorVersionChanged   : Bool := false
  StateChanged              : Bool := false
  DescriptionChanged        : Bool := false
  CapsHashChanged           : Bool := false
  TagsChanged               : Bool := false
deriving DecidableEq, Repr

/-- `printerSliceToMapByName` (src/unnamed/part_000 lines 86–92): builds
`map[string]Printer` by iterating the slice in order, so the last printer
with a given name wins.  The Go map is modelled as its lookup function. -/
def printerSliceToMapByName (s : List Printer) : String → Option Printer :=
  fun n => s.foldl (fun acc p => if p.Name = n then some p else acc) none

/-- The change-flag record built by `diffPrinter` (src/unnamed/part_000
lines 153–199): operation `UpdatePrinter`, payload `pc` (the CUPS/local
printer), and one boolean per compared field group.  Setting each flag to
the comparison result is equivalent to Go's "start at false, set to true
on mismatch".  Tags are compared solely through the `"tagshash"` tag
(lines 195–199): missing on either side counts as a difference. -/
def printerFlags (pc pg : Printer) : PrinterDiff :=
  { Operation := UpdatePrinter
    Printer := pc
    DefaultDisplayNameChanged := pg.DefaultDisplayName != pc.DefaultDisplayName
    ManufacturerChanged := pg.Manufacturer != pc.Manufacturer
    ModelChanged := pg.Model != pc.Model
    GCPVersionChanged := pg.GCPVersion != pc.GCPVersion
    SetupURLChanged := pg.SetupURL != pc.SetupURL
    SupportURLChanged := pg.SupportURL != pc.SupportURL
    UpdateURLChanged := pg.UpdateURL != pc.UpdateURL
    ConnectorVersionChanged := pg.ConnectorVersion != pc.ConnectorVersion
    StateChanged := pg.State != pc.State
    DescriptionChanged := pg.Description != pc.Description
    CapsHashChanged := pg.CapsHash != pc.CapsHash
    TagsChanged :=
      match tagsLookup pg.Tags "tagshash", tagsLookup pc.Tags "tagshash" with
      | some gsh, some csh => gsh != csh
      | _, _ => true }

/-- The `||`-chain of src/unnamed/part_000 lines 201–204. -/
def anyFlag (d : PrinterDiff) : Bool :=
  d.DefaultDisplayNameChanged || d.ManufacturerChanged || d.ModelChanged ||
    d.GCPVersionChanged || d.SetupURLChanged || d.SupportURLChanged ||
    d.UpdateURLChanged || d.ConnectorVersionChanged || d.StateChanged ||
    d.DescriptionChanged || d.CapsHashChanged || d.TagsChanged

/-- Lexicographic comparison of character lists by code point.  Go's
`string <` compares UTF-8 bytes; byte-wise UTF-8 order coincides with
code-point order, so this models Go string comparison exactly. -/
def charListLt : List Char → List Char → Bool
  | _, [] => false
  | [], _ :: _ => true
  | a :: as, b :: bs =>
    if a < b then true
    else if b < a then false
    else charListLt as bs

/-- Go's `a < b` on strings (byte-wise lexicographic). -/
def goStringLt (a b : String) : Bool :=
  charListLt a.data b.data

deriving instance DecidableEq for Except

/-- `diffPrinter` (src/unnamed/part_000 lines 152–212).  `pc` is the CUPS
(local) printer, `pg` the GCP (remote) printer.  The Go code panics with
"GCP version cannot be downgraded; delete GCP printers" when the versions
differ and `pg.GCPVersion > pc.GCPVersion` (byte-wise lexicographic Go
string comparison, `goStringLt pc.GCPVersion pg.GCPVersion` here); the
panic aborts before anything is returned, which is modelled by hoisting
that test to an early `.error`. -/
def diffPrinter (pc pg : Printer) : Except String PrinterDiff :=
  if pg.GCPVersion != pc.GCPVersion && goStringLt pc.GCPVersion pg.GCPVersion then
    .error "GCP version cannot be downgraded; delete GCP printers"
  else
    let d := printerFlags pc pg
    if anyFlag d then
      .ok d
    else
      .ok { Operation := NoChangeToPrinter, Printer := pg }

/-- The carry-over of src/unnamed/part_000 lines 113–117: before diffing,
the remote printer's `GCPID` and `CUPSJobSemaphore` are copied onto the
matched local record. -/
def carryOver (pc pg : Printer) : Printer :=
  { pc with GCPID := pg.GCPID, CUPSJobSemaphore := pg.CUPSJobSemaphore }

/-- The first loop of `DiffPrinters` (src/unnamed/part_000 lines
104–131), iterating the GCP (remote) snapshot.  State: `seen` is the
`printersConsidered` set; the result carries the final `seen`, the
`dirty` flag contribution, and the emitted diffs in order.  A `panic`
inside `diffPrinter` aborts the whole computation (`.error`). -/
def remotePass (byName : String → Option Printer) :
    List Printer → List String → Except String (List String × Bool × List PrinterDiff)
  | [], seen => .ok (seen, false, [])
  | pg :: rest, seen =>
    if pg.Name ∈ seen then
      -- GCP can have multiple printers with one name. Remove dupes.
      match remotePass byName rest seen with
      | .error e => .error e
      | .ok (seen', _, ds) =>
        .ok (seen', true, { Operation := DeletePrinter, Printer := pg } :: ds)
    else
      match byName pg.Name with
      | some pc =>
        match diffPrinter (carryOver pc pg) pg with
        | .error e => .error e
        | .ok d =>
          match remotePass byName rest (pg.Name :: seen) with
          | .error e => .error e
          | .ok (seen', dirty', ds) =>
            .ok (seen', dirty' || decide (d.Operation ≠ NoChangeToPrinter), d :: ds)
      | none =>
        match remotePass byName rest (pg.Name :: seen) with
        | .error e => .error e
        | .ok (seen', _, ds) =>
          .ok (seen', true, { Operation := DeletePrinter, Printer := pg } :: ds)

/-- The second loop of `DiffPrinters` (src/unnamed/part_000 lines
133–138): every CUPS (local) printer whose name was not considered in
the remote pass yields a `RegisterPrinter` diff. -/
def localPass (seen : List String) (cupsPrinters : List Printer) : List PrinterDiff :=
  cupsPrinters.filterMap (fun p =>
    if p.Name ∈ seen then none
    else some { Operation := RegisterPrinter, Printer := p })

/-- `DiffPrinters` (src/unnamed/part_000 lines 96–145).  Returns the
accumulated diff list when at least one diff is "dirty" (not
`NoChangeToPrinter`), otherwise Go returns `nil`, modelled as `[]`. -/
def DiffPrinters (cupsPrinters gcpPrinters : List Printer) : Except String (List PrinterDiff) :=
  match remotePass (printerSliceToMapByName cupsPrinters) gcpPrinters [] with
  | .error e => .error e
  | .ok (seen, dirty, ds) =>
    let regs := localPass seen cupsPrinters
    if dirty || !regs.isEmpty then
      .ok (ds ++ regs)
    else
      .ok []

/-- An all-empty printer record (Go zero value), used to build concrete
test inputs. -/
def emptyPrinter : Printer :=
  { GCPID := "", Name := "", DefaultDisplayName := "", UUID := "",
    Manufacturer := "", Model := "", GCPVersion := "", SetupURL := "",
    SupportURL := "", UpdateURL := "", ConnectorVersion := "",
    State := none, Description := none, CapsHash := "", Tags := [],
    CUPSJobSemaphore := none }

/-! ## Basic facts about `diffPrinter` -/

theorem charListLt_irrefl : ∀ l : List Char, charListLt l l = false
  | [] => rfl
  | a :: as => by
    simp only [charListLt, lt_irrefl, if_false]
    exact charListLt_irrefl as

theorem goStringLt_ne {a b : String} (h : goStringLt a b = true) : a ≠ b := by
  intro heq
  subst heq
  rw [goStringLt, charListLt_irrefl] at h
  exact Bool.false_ne_true h

theorem diffPrinter_ok_op {pc pg : Printer} {d : PrinterDiff}
    (h : diffPrinter pc pg = .ok d) :
    d.Operation = UpdatePrinter ∨ d.Operation = NoChangeToPrinter := by
  simp only [diffPrinter] at h
  split at h
  · exact absurd h (by simp)
  · split at h
    · cases h; exact Or.inl rfl
    · cases h; exact Or.inr rfl

/-- `flagList` collects the twelve change flags of a diff, in source
order (src/unnamed/part_000 lines 72–83). -/
def flagList (d : PrinterDiff) : List Bool :=
  [d.DefaultDisplayNameChanged, d.ManufacturerChanged, d.ModelChanged,
   d.GCPVersionChanged, d.SetupURLChanged, d.SupportURLChanged,
   d.UpdateURLChanged, d.ConnectorVersionChanged, d.StateChanged,
   d.DescriptionChanged, d.CapsHashChanged, d.TagsChanged]

theorem anyFlag_eq_any (d : PrinterDiff) : anyFlag d = (flagList d).any id := by
  simp [anyFlag, flagList, List.any_cons, List.any_nil, Bool.or_assoc]

/-! ## C6: version-downgrade detection -/

/-- C6: for every matched local/remote pair, `diffPrinter` raises the
fatal error iff the remote (GCP) version string is byte-wise greater than
the local (CUPS) version string; when it is not, an ordinary
`Update`/`NoChange` diff is produced. -/
theorem diffPrinter_version_error_iff (pc pg : Printer) :
    ((∃ e, diffPrinter pc pg = .error e) ↔
      goStringLt pc.GCPVersion pg.GCPVersion = true)
    ∧ (goStringLt pc.GCPVersion pg.GCPVersion = false →
        ∃ d, diffPrinter pc pg = .ok d ∧
          (d.Operation = UpdatePrinter ∨ d.Operation = NoChangeToPrinter)) := by
  constructor
  · constructor
    · rintro ⟨e, h⟩
      simp only [diffPrinter] at h
      split at h
      · rename_i hguard
        exact (Bool.and_eq_true _ _).mp hguard |>.2
      · split at h <;> exact absurd h (by simp)
    · intro hlt
      have hne : pg.GCPVersion != pc.GCPVersion :=
        bne_iff_ne.mpr (Ne.symm (goStringLt_ne hlt))
      refine ⟨"GCP version cannot be downgraded; delete GCP printers", ?_⟩
      simp [diffPrinter, hne, hlt]
  · intro hlt
    have hguard : (pg.GCPVersion != pc.GCPVersion &&
        goStringLt pc.GCPVersion pg.GCPVersion) = false := by
      rw [hlt, Bool.and_false]
    simp only [diffPrinter, hguard, Bool.false_eq_true, if_false]
    by_cases hany : anyFlag (printerFlags pc pg)
    · exact ⟨printerFlags pc pg, by simp [hany], Or.inl rfl⟩
    · exact ⟨{ Operation := NoChangeToPrinter, Printer := pg },
        by simp [hany], Or.inr rfl⟩

/-- C6 witness: local version "1.0" against remote "2.0" raises the
fatal error; local "2.0" against remote "1.0" yields an ordinary diff. -/
theorem diffPrinter_version_error_iff_witness :
    (∃ e, diffPrinter { emptyPrinter with GCPVersion := "1.0" }
        { emptyPrinter with GCPVersion := "2.0" } = .error e)
    ∧ (∃ d, diffPrinter { emptyPrinter with GCPVersion := "2.0" }
        { emptyPrinter with GCPVersion := "1.0" } = .ok d ∧
          (d.Operation = UpdatePrinter ∨ d.Operation = NoChangeToPrinter)) :=
  ⟨(diffPrinter_version_error_iff _ _).1.mpr (by decide),
   (diffPrinter_version_error_iff _ _).2 (by decide)⟩

/-! ## C7: diff payloads for matched pairs -/

/-- C7: for a matched local/remote pair — the local record with the
remote's `GCPID` and `CUPSJobSemaphore` carried over, as `DiffPrinters`
does at src/unnamed/part_000 lines 113–119 — an `Update` diff carries
that carried-over local record as payload, and a `NoChange` diff carries
the remote record unchanged. -/
theorem diffPrinter_payload (pcOrig pg : Printer) (d : PrinterDiff)
    (h : diffPrinter (carryOver pcOrig pg) pg = .ok d) :
    (d.Operation = UpdatePrinter →
      d.Printer = { pcOrig with
        GCPID := pg.GCPID
        CUPSJobSemaphore := pg.CUPSJobSemaphore })
    ∧ (d.Operation = NoChangeToPrinter → d.Printer = pg) := by
  simp only [diffPrinter] at h
  split at h
  · exact absurd h (by simp)
  · split at h
    · cases h
      exact ⟨fun _ => rfl, fun hop => by cases hop⟩
    · cases h
      exact ⟨(fun hop => nomatch hop), fun _ => rfl⟩

/-- Concrete matched pair for the C7 witness: the remote side owns a
`GCPID` and a semaphore, the local side differs in display name. -/
def pcW : Printer := { emptyPrinter with
  Name := "pr"
  DefaultDisplayName := "new name"
  Tags := [("tagshash", "h")] }

def pgW : Printer := { emptyPrinter with
  Name := "pr"
  GCPID := "gcp-17"
  CUPSJobSemaphore := some { id := 3 }
  DefaultDisplayName := "old name"
  Tags := [("tagshash", "h")] }

def dW : PrinterDiff := printerFlags (carryOver pcW pgW) pgW

/-- C7 witness: on the concrete matched pair the diff is an `Update`
whose payload is the local record with `GCPID` and `CUPSJobSemaphore`
carried over from the remote record. -/
theorem diffPrinter_payload_witness :
    diffPrinter (carryOver pcW pgW) pgW = .ok dW ∧
    dW.Operation = UpdatePrinter ∧
    dW.Printer = { pcW with
      GCPID := pgW.GCPID
      CUPSJobSemaphore := pgW.CUPSJobSemaphore } := by
  have h : diffPrinter (carryOver pcW pgW) pgW = .ok dW := by decide
  exact ⟨h, rfl, (diffPrinter_payload pcW pgW dW h).1 rfl⟩

/-! ## C3: field-flag accuracy for single-field changes -/

/-- Concrete pair refuting C3 as stated: the only differing field group
is the version, but the remote version is greater, so `diffPrinter`
raises the fatal downgrade error instead of computing an `Update`. -/
def c3pc : Printer := { emptyPrinter with
  GCPVersion := "1.0"
  Tags := [("tagshash", "h")] }

def c3pg : Printer := { emptyPrinter with
  GCPVersion := "2.0"
  Tags := [("tagshash", "h")] }

/-- C3 counterexample: a matched pair in which exactly one compared field
group (the version) differs, yet the computed result is the fatal
version-downgrade error, not an `Update` diff. -/
theorem diffPrinter_single_field_cex :
    (flagList (printerFlags c3pc c3pg)).count true = 1 ∧
    diffPrinter c3pc c3pg =
      .error "GCP version cannot be downgraded; delete GCP printers" := by
  exact ⟨by decide, by decide⟩

/-- C3 (amended): for every matched pair in which exactly one compared
field group differs, provided the remote version is not greater than the
local version (otherwise the fatal downgrade error is raised instead),
the diff is `Update` with exactly the computed per-field flags — i.e.
only that group's flag set; and tags are compared solely via the
`"tagshash"` tag value, the tag missing on either side counting as a
tags difference. -/
theorem diffPrinter_single_field_flags (pc pg : Printer) :
    ((flagList (printerFlags pc pg)).count true = 1 →
      goStringLt pc.GCPVersion pg.GCPVersion = false →
      diffPrinter pc pg = .ok (printerFlags pc pg) ∧
        (printerFlags pc pg).Operation = UpdatePrinter)
    ∧ ((printerFlags pc pg).TagsChanged = false ↔
        ∃ v, tagsLookup pg.Tags "tagshash" = some v ∧
          tagsLookup pc.Tags "tagshash" = some v) := by
  constructor
  · intro hcount hlt
    have hmem : true ∈ flagList (printerFlags pc pg) := by
      have : 0 < (flagList (printerFlags pc pg)).count true := by omega
      exact List.count_pos_iff.mp this
    have hany : anyFlag (printerFlags pc pg) = true := by
      rw [anyFlag_eq_any]
      exact List.any_eq_true.mpr ⟨true, hmem, rfl⟩
    have hguard : (pg.GCPVersion != pc.GCPVersion &&
        goStringLt pc.GCPVersion pg.GCPVersion) = false := by
      rw [hlt, Bool.and_false]
    refine ⟨?_, rfl⟩
    simp [diffPrinter, hguard, hany]
  · simp only [printerFlags]
    rcases hg : tagsLookup pg.Tags "tagshash" with _ | gv <;>
        rcases hc : tagsLookup pc.Tags "tagshash" with _ | cv
    · simp
    · simp
    · simp
    · show (gv != cv) = false ↔ ∃ v, some gv = some v ∧ some cv = some v
      simp only [bne_eq_false_iff_eq, Option.some.injEq]
      constructor
      · intro h
        exact ⟨gv, rfl, h.symm⟩
      · rintro ⟨v, h1, h2⟩
        rw [h1, h2]

/-- Concrete pair for the C3 witness: only the display name differs. -/
def c3wpc : Printer := { emptyPrinter with Tags := [("tagshash", "h")] }

def c3wpg : Printer := { emptyPrinter with
  Tags := [("tagshash", "h")]
  DefaultDisplayName := "old" }

/-- C3 witness: with exactly the display name differing (and no version
downgrade), the diff is `Update` with only that flag set. -/
theorem diffPrinter_single_field_flags_witness :
    diffPrinter c3wpc c3wpg = .ok (printerFlags c3wpc c3wpg) ∧
      (printerFlags c3wpc c3wpg).Operation = UpdatePrinter :=
  (diffPrinter_single_field_flags c3wpc c3wpg).1 (by decide) (by decide)

/-! ## Structure of the remote pass -/

theorem localPass_eq (seen : List String) (c : List Printer) :
    localPass seen c = (c.filter (fun p => !decide (p.Name ∈ seen))).map
      (fun p => { Operation := RegisterPrinter, Printer := p }) := by
  induction c with
  | nil => rfl
  | cons p c ih =>
    simp only [localPass, List.filterMap_cons] at ih ⊢
    by_cases hp : p.Name ∈ seen
    · simp [hp, ih]
    · simp [hp, ih]

theorem mem_take_map_iff (g : List Printer) :
    ∀ (i : Nat) (n : String),
      n ∈ (g.take i).map (fun p => p.Name) ↔
        ∃ j, j < i ∧ ∃ q, g[j]? = some q ∧ q.Name = n := by
  induction g with
  | nil =>
    intro i n
    simp
  | cons p rest ih =>
    intro i n
    cases i with
    | zero => simp
    | succ i =>
      rw [List.take_succ_cons, List.map_cons, List.mem_cons]
      constructor
      · rintro (rfl | hmem)
        · exact ⟨0, Nat.succ_pos i, p, by simp, rfl⟩
        · obtain ⟨j, hj, q, hq, hn⟩ := (ih i n).mp hmem
          exact ⟨j + 1, Nat.succ_lt_succ hj, q, by simpa using hq, hn⟩
      · rintro ⟨j, hj, q, hq, hn⟩
        cases j with
        | zero =>
          rw [List.getElem?_cons_zero] at hq
          cases hq
          exact Or.inl hn.symm
        | succ j =>
          rw [List.getElem?_cons_succ] at hq
          exact Or.inr ((ih i n).mpr ⟨j, Nat.lt_of_succ_lt_succ hj, q, hq, hn⟩)

theorem foldl_byName_skip (n : String) :
    ∀ (c : List Printer) (acc : Option Printer), (∀ p ∈ c, p.Name ≠ n) →
      c.foldl (fun acc p => if p.Name = n then some p else acc) acc = acc := by
  intro c
  induction c with
  | nil => intro acc _; rfl
  | cons p c ih =>
    intro acc h
    rw [List.foldl_cons, if_neg (h p (List.mem_cons_self p c))]
    exact ih acc (fun q hq => h q (List.mem_cons_of_mem p hq))

theorem byName_none {c : List Printer} {n : String} (h : ∀ p ∈ c, p.Name ≠ n) :
    printerSliceToMapByName c n = none :=
  foldl_byName_skip n c none h

theorem byName_self {c : List Printer} (hnd : (c.map (fun p => p.Name)).Nodup) :
    ∀ p ∈ c, printerSliceToMapByName c p.Name = some p := by
  induction c with
  | nil => intro p hp; cases hp
  | cons q c ih =>
    intro p hp
    rw [List.map_cons, List.nodup_cons] at hnd
    obtain ⟨hq, hnd'⟩ := hnd
    simp only [printerSliceToMapByName, List.foldl_cons]
    rcases List.mem_cons.mp hp with rfl | hp'
    · rw [if_pos rfl]
      exact foldl_byName_skip p.Name c (some p)
        (fun r hr hrn =>
          hq (by rw [← hrn]; exact List.mem_map_of_mem (fun p => p.Name) hr))
    · rw [if_neg (fun hqn =>
        hq (by rw [hqn]; exact List.mem_map_of_mem (fun p => p.Name) hp'))]
      exact ih hnd' p hp'

theorem carryOver_self (p : Printer) : carryOver p p = p := rfl

theorem diffPrinter_self {p : Printer} (h : (tagsLookup p.Tags "tagshash").isSome) :
    diffPrinter p p = .ok { Operation := NoChangeToPrinter, Printer := p } := by
  obtain ⟨v, hv⟩ := Option.isSome_iff_exists.mp h
  have hflags : anyFlag (printerFlags p p) = false := by
    simp [anyFlag, printerFlags, hv]
  simp [diffPrinter, hflags]

/-- Structural characterization of the remote pass: the diff list is
positionally parallel to the remote snapshot (duplicate name → delete;
unmatched name → delete; matched name → `diffPrinter` on the
carried-over local record), the final `seen` set is the initial one plus
all remote names, and `dirty` holds exactly when some emitted diff is
not `NoChangeToPrinter`. -/
theorem remotePass_ok_spec (byName : String → Option Printer) :
    ∀ (l : List Printer) (seen seen' : List String) (dirty : Bool)
      (ds : List PrinterDiff),
      remotePass byName l seen = .ok (seen', dirty, ds) →
      ds.length = l.length
      ∧ (∀ n, n ∈ seen' ↔ n ∈ seen ∨ n ∈ l.map (fun p => p.Name))
      ∧ (dirty = true ↔ ∃ d ∈ ds, d.Operation ≠ NoChangeToPrinter)
      ∧ (∀ i pg, l[i]? = some pg →
          if pg.Name ∈ seen ∨ pg.Name ∈ (l.take i).map (fun p => p.Name) then
            ds[i]? = some { Operation := DeletePrinter, Printer := pg }
          else
            match byName pg.Name with
            | none => ds[i]? = some { Operation := DeletePrinter, Printer := pg }
            | some pc => ds[i]? = (diffPrinter (carryOver pc pg) pg).toOption) := by
  intro l
  induction l with
  | nil =>
    intro seen seen' dirty ds h
    simp only [remotePass] at h
    cases h
    exact ⟨rfl, fun n => by simp, by simp, fun i pg hi => by simp at hi⟩
  | cons pg rest ih =>
    intro seen seen' dirty ds h
    simp only [remotePass] at h
    by_cases hseen : pg.Name ∈ seen
    · rw [if_pos hseen] at h
      cases hrec : remotePass byName rest seen with
      | error e => rw [hrec] at h; cases h
      | ok res =>
        obtain ⟨seen1, dirty1, ds1⟩ := res
        rw [hrec] at h
        cases h
        obtain ⟨hlen, hseenm, hdirty, hidx⟩ := ih _ _ _ _ hrec
        refine ⟨by simp [hlen], ?_, ?_, ?_⟩
        · intro n
          rw [hseenm n, List.map_cons, List.mem_cons]
          constructor
          · rintro (hn | hn)
            · exact Or.inl hn
            · exact Or.inr (Or.inr hn)
          · rintro (hn | rfl | hn)
            · exact Or.inl hn
            · exact Or.inl hseen
            · exact Or.inr hn
        · constructor
          · intro _
            exact ⟨{ Operation := DeletePrinter, Printer := pg },
              List.mem_cons_self _ _, by simp⟩
          · intro _; rfl
        · intro i pg' hi
          cases i with
          | zero =>
            rw [List.getElem?_cons_zero] at hi
            cases hi
            rw [if_pos (Or.inl hseen)]
            simp
          | succ i =>
            rw [List.getElem?_cons_succ] at hi
            have hIH := hidx i pg' hi
            rw [List.take_succ_cons, List.map_cons]
            have hiff : (pg'.Name ∈ seen ∨
                pg'.Name ∈ pg.Name :: (rest.take i).map (fun p => p.Name)) ↔
                (pg'.Name ∈ seen ∨
                  pg'.Name ∈ (rest.take i).map (fun p => p.Name)) := by
              simp only [List.mem_cons]
              constructor
              · rintro (hn | hn | hn)
                · exact Or.inl hn
                · exact Or.inl (hn ▸ hseen)
                · exact Or.inr hn
              · rintro (hn | hn)
                · exact Or.inl hn
                · exact Or.inr (Or.inr hn)
            rw [if_congr hiff rfl rfl]
            simp only [List.getElem?_cons_succ]
            exact hIH
    · rw [if_neg hseen] at h
      cases hby : byName pg.Name with
      | some pc =>
        rw [hby] at h
        simp only [] at h
        cases hdiff : diffPrinter (carryOver pc pg) pg with
        | error e => rw [hdiff] at h; simp only [] at h; cases h
        | ok d =>
          rw [hdiff] at h
          simp only [] at h
          cases hrec : remotePass byName rest (pg.Name :: seen) with
          | error e => rw [hrec] at h; simp only [] at h; cases h
          | ok res =>
            obtain ⟨seen1, dirty1, ds1⟩ := res
            rw [hrec] at h
            simp only [] at h
            cases h
            obtain ⟨hlen, hseenm, hdirty, hidx⟩ := ih _ _ _ _ hrec
            refine ⟨by simp [hlen], ?_, ?_, ?_⟩
            · intro n
              rw [hseenm n, List.map_cons, List.mem_cons, List.mem_cons]
              tauto
            · rw [Bool.or_eq_true, hdirty, decide_eq_true_eq]
              constructor
              · rintro (⟨d', hd', hne⟩ | hne)
                · exact ⟨d', List.mem_cons_of_mem _ hd', hne⟩
                · exact ⟨d, List.mem_cons_self _ _, hne⟩
              · rintro ⟨d', hd', hne⟩
                rcases List.mem_cons.mp hd' with rfl | hd'
                · exact Or.inr hne
                · exact Or.inl ⟨d', hd', hne⟩
            · intro i pg' hi
              cases i with
              | zero =>
                rw [List.getElem?_cons_zero] at hi
                cases hi
                rw [if_neg (by simp [hseen])]
                rw [hby]
                simp only []
                rw [hdiff]
                simp [Except.toOption]
              | succ i =>
                rw [List.getElem?_cons_succ] at hi
                have hIH := hidx i pg' hi
                rw [List.take_succ_cons, List.map_cons]
                have hiff : (pg'.Name ∈ seen ∨
                    pg'.Name ∈ pg.Name :: (rest.take i).map (fun p => p.Name)) ↔
                    (pg'.Name ∈ pg.Name :: seen ∨
                      pg'.Name ∈ (rest.take i).map (fun p => p.Name)) := by
                  simp only [List.mem_cons]
                  tauto
                rw [if_congr hiff rfl rfl]
                simp only [List.getElem?_cons_succ]
                exact hIH
      | none =>
        rw [hby] at h
        simp only [] at h
        cases hrec : remotePass byName rest (pg.Name :: seen) with
        | error e => rw [hrec] at h; simp only [] at h; cases h
        | ok res =>
          obtain ⟨seen1, dirty1, ds1⟩ := res
          rw [hrec] at h
          simp only [] at h
          cases h
          obtain ⟨hlen, hseenm, hdirty, hidx⟩ := ih _ _ _ _ hrec
          refine ⟨by simp [hlen], ?_, ?_, ?_⟩
          · intro n
            rw [hseenm n, List.map_cons, List.mem_cons, List.mem_cons]
            tauto
          · constructor
            · intro _
              exact ⟨{ Operation := DeletePrinter, Printer := pg },
                List.mem_cons_self _ _, by simp⟩
            · intro _; rfl
          · intro i pg' hi
            cases i with
            | zero =>
              rw [List.getElem?_cons_zero] at hi
              cases hi
              rw [if_neg (by simp [hseen])]
              rw [hby]
              simp only []
              simp
            | succ i =>
              rw [List.getElem?_cons_succ] at hi
              have hIH := hidx i pg' hi
              rw [List.take_succ_cons, List.map_cons]
              have hiff : (pg'.Name ∈ seen ∨
                  pg'.Name ∈ pg.Name :: (rest.take i).map (fun p => p.Name)) ↔
                  (pg'.Name ∈ pg.Name :: seen ∨
                    pg'.Name ∈ (rest.take i).map (fun p => p.Name)) := by
                simp only [List.mem_cons]
                tauto
              rw [if_congr hiff rfl rfl]
              simp only [List.getElem?_cons_succ]
              exact hIH

/-! ## C1: all-or-nothing batching -/

/-- C1: given that the remote pass completed (no version panic),
`DiffPrinters` returns an empty (Go `nil`) list iff every per-printer
diff it computed — the remote-pass diffs plus the register diffs — is
`NoChangeToPrinter`; and when at least one diff is not `NoChange`, the
returned list is the full accumulated list, `NoChange` entries
included. -/
theorem DiffPrinters_empty_iff_noChange (c g : List Printer)
    (seen : List String) (dirty : Bool) (ds : List PrinterDiff)
    (h : remotePass (printerSliceToMapByName c) g [] = .ok (seen, dirty, ds)) :
    (DiffPrinters c g = .ok [] ↔
      ∀ d ∈ ds ++ localPass seen c, d.Operation = NoChangeToPrinter)
    ∧ ((∃ d ∈ ds ++ localPass seen c, d.Operation ≠ NoChangeToPrinter) →
        DiffPrinters c g = .ok (ds ++ localPass seen c)) := by
  obtain ⟨-, -, hdirty, -⟩ :=
    remotePass_ok_spec (printerSliceToMapByName c) g [] seen dirty ds h
  have hDP : DiffPrinters c g =
      if dirty || !(localPass seen c).isEmpty then .ok (ds ++ localPass seen c)
      else .ok [] := by
    simp only [DiffPrinters, h]
  have hregop : ∀ d ∈ localPass seen c, d.Operation = RegisterPrinter := by
    intro d hd
    rw [localPass_eq] at hd
    obtain ⟨p, -, rfl⟩ := List.mem_map.mp hd
    rfl
  by_cases hb : (dirty || !(localPass seen c).isEmpty) = true
  · rw [if_pos hb] at hDP
    have hex : ∃ d ∈ ds ++ localPass seen c, d.Operation ≠ NoChangeToPrinter := by
      rcases Bool.or_eq_true _ _ |>.mp hb with hd | hr
      · obtain ⟨d, hd, hne⟩ := hdirty.mp hd
        exact ⟨d, List.mem_append_left _ hd, hne⟩
      · have hne : localPass seen c ≠ [] := by
          intro he
          rw [he] at hr
          simp at hr
        obtain ⟨d, hd⟩ := List.exists_mem_of_ne_nil _ hne
        refine ⟨d, List.mem_append_right _ hd, ?_⟩
        rw [hregop d hd]
        intro hcon
        cases hcon
    constructor
    · constructor
      · intro h0
        rw [hDP] at h0
        have hnil : ds ++ localPass seen c = [] := Except.ok.inj h0
        intro d hd
        rw [hnil] at hd
        cases hd
      · intro hall
        obtain ⟨d, hd, hne⟩ := hex
        exact absurd (hall d hd) hne
    · intro _
      exact hDP
  · rw [if_neg hb] at hDP
    have hfalse : (dirty || !(localPass seen c).isEmpty) = false := by
      cases hx : (dirty || !(localPass seen c).isEmpty)
      · rfl
      · exact absurd hx hb
    rw [Bool.or_eq_false_iff] at hfalse
    obtain ⟨hd0, hr0⟩ := hfalse
    have hregs : localPass seen c = [] := by
      rcases he : localPass seen c with _ | ⟨d, ds'⟩
      · rfl
      · rw [he] at hr0
        simp at hr0
    have hnone : ∀ d ∈ ds, d.Operation = NoChangeToPrinter := by
      intro d hd
      by_contra hne
      have hcon : dirty = true := hdirty.mpr ⟨d, hd, hne⟩
      rw [hd0] at hcon
      cases hcon
    constructor
    · constructor
      · intro _ d hd
        rw [hregs, List.append_nil] at hd
        exact hnone d hd
      · intro _
        exact hDP
    · rintro ⟨d, hd, hne⟩
      rw [hregs, List.append_nil] at hd
      exact absurd (hnone d hd) hne

/-- C1 witness: on local `[emptyPrinter]` against empty remote, the run
is dirty (one register diff), so the full diff list is returned and the
result is not empty. -/
theorem DiffPrinters_empty_iff_noChange_witness :
    (DiffPrinters [emptyPrinter] [] = .ok [] ↔
      ∀ d ∈ ([] : List PrinterDiff) ++ localPass [] [emptyPrinter],
        d.Operation = NoChangeToPrinter)
    ∧ ((∃ d ∈ ([] : List PrinterDiff) ++ localPass [] [emptyPrinter],
          d.Operation ≠ NoChangeToPrinter) →
        DiffPrinters [emptyPrinter] [] =
          .ok ([] ++ localPass [] [emptyPrinter])) :=
  DiffPrinters_empty_iff_noChange [emptyPrinter] [] [] false [] rfl

/-! ## C2: completeness of register and delete diffs -/

/-- C2: in a completed run, the `Register` diffs of the result are
exactly one per local printer whose name occurs nowhere in the remote
snapshot (in local order), and every remote printer that is the first
occurrence of its name and matches no local printer contributes exactly
one `Delete` diff, at its own position in the result. -/
theorem DiffPrinters_register_delete (c g : List Printer)
    (r : List PrinterDiff) (h : DiffPrinters c g = .ok r) :
    (r.filter (fun d => d.Operation == RegisterPrinter) =
      (c.filter (fun p => decide (∀ q ∈ g, q.Name ≠ p.Name))).map
        (fun p => { Operation := RegisterPrinter, Printer := p }))
    ∧ (∀ (i : Nat) (pg : Printer), g[i]? = some pg →
        (∀ (j : Nat) (q : Printer), j < i → g[j]? = some q →
          q.Name ≠ pg.Name) →
        (∀ p ∈ c, p.Name ≠ pg.Name) →
        r[i]? = some { Operation := DeletePrinter, Printer := pg }) := by
  simp only [DiffPrinters] at h
  cases hrp : remotePass (printerSliceToMapByName c) g [] with
  | error e =>
    rw [hrp] at h
    simp only [] at h
    cases h
  | ok res =>
    obtain ⟨seen, dirty, ds⟩ := res
    rw [hrp] at h
    simp only [] at h
    obtain ⟨hlen, hseenm, hdirty, hidx⟩ :=
      remotePass_ok_spec (printerSliceToMapByName c) g [] seen dirty ds hrp
    have hpred : ∀ p ∈ c,
        (!decide (p.Name ∈ seen)) = decide (∀ q ∈ g, q.Name ≠ p.Name) := by
      intro p _
      rw [← decide_not, decide_eq_decide]
      rw [hseenm p.Name]
      simp only [List.not_mem_nil, false_or, List.mem_map, not_exists, not_and]
    have hregs_eq : localPass seen c =
        (c.filter (fun p => decide (∀ q ∈ g, q.Name ≠ p.Name))).map
          (fun p => { Operation := RegisterPrinter, Printer := p }) := by
      rw [localPass_eq, List.filter_congr hpred]
    have hds_op : ∀ d ∈ ds, d.Operation ≠ RegisterPrinter := by
      intro d hd
      obtain ⟨i, hi⟩ := List.mem_iff_getElem?.mp hd
      obtain ⟨hilen, -⟩ := List.getElem?_eq_some_iff.mp hi
      have higlen : i < g.length := by omega
      cases hg : g[i]? with
      | none =>
        rw [List.getElem?_eq_none_iff] at hg
        omega
      | some pg =>
        have hspec := hidx i pg hg
        split at hspec
        · rw [hi] at hspec
          cases hspec
          intro hcon
          cases hcon
        · cases hbn : printerSliceToMapByName c pg.Name with
          | none =>
            rw [hbn] at hspec
            simp only [] at hspec
            rw [hi] at hspec
            cases hspec
            intro hcon
            cases hcon
          | some pc =>
            rw [hbn] at hspec
            simp only [] at hspec
            rw [hi] at hspec
            cases hdp : diffPrinter (carryOver pc pg) pg with
            | error e =>
              rw [hdp] at hspec
              simp only [Except.toOption] at hspec
              exact absurd hspec (by simp)
            | ok d2 =>
              rw [hdp] at hspec
              simp only [Except.toOption] at hspec
              cases hspec
              rcases diffPrinter_ok_op hdp with hop | hop <;>
                rw [hop] <;> intro hcon <;> cases hcon
    by_cases hb : (dirty || !(localPass seen c).isEmpty) = true
    · rw [if_pos hb] at h
      cases h
      constructor
      · rw [List.filter_append]
        have h1 : ds.filter (fun d => d.Operation == RegisterPrinter) = [] := by
          rw [List.filter_eq_nil_iff]
          intro d hd hcon
          exact hds_op d hd (by simpa using hcon)
        have h2 : (localPass seen c).filter
            (fun d => d.Operation == RegisterPrinter) = localPass seen c := by
          rw [List.filter_eq_self]
          intro d hd
          rw [localPass_eq] at hd
          obtain ⟨p, -, rfl⟩ := List.mem_map.mp hd
          simp
        rw [h1, h2, List.nil_append, hregs_eq]
      · intro i pg hgi hfirst hnoloc
        have hnmem : pg.Name ∉ (g.take i).map (fun p => p.Name) := by
          rw [mem_take_map_iff]
          rintro ⟨j, hj, q, hq, hqn⟩
          exact hfirst j q hj hq hqn
        have hbn : printerSliceToMapByName c pg.Name = none := byName_none hnoloc
        have hspec := hidx i pg hgi
        rw [if_neg (fun hor => hor.elim (List.not_mem_nil _) hnmem)] at hspec
        rw [hbn] at hspec
        simp only [] at hspec
        obtain ⟨hilen, -⟩ := List.getElem?_eq_some_iff.mp hspec
        rw [List.getElem?_append_left hilen]
        exact hspec
    · rw [if_neg hb] at h
      cases h
      have hfalse : (dirty || !(localPass seen c).isEmpty) = false := by
        cases hx : (dirty || !(localPass seen c).isEmpty)
        · rfl
        · exact absurd hx hb
      rw [Bool.or_eq_false_iff] at hfalse
      obtain ⟨hd0, hr0⟩ := hfalse
      have hregs : localPass seen c = [] := by
        rcases he : localPass seen c with _ | ⟨d, ds'⟩
        · rfl
        · rw [he] at hr0
          simp at hr0
      constructor
      · rw [List.filter_nil, ← hregs_eq, hregs]
      · intro i pg hgi hfirst hnoloc
        exfalso
        have hnmem : pg.Name ∉ (g.take i).map (fun p => p.Name) := by
          rw [mem_take_map_iff]
          rintro ⟨j, hj, q, hq, hqn⟩
          exact hfirst j q hj hq hqn
        have hbn : printerSliceToMapByName c pg.Name = none := byName_none hnoloc
        have hspec := hidx i pg hgi
        rw [if_neg (fun hor => hor.elim (List.not_mem_nil _) hnmem)] at hspec
        rw [hbn] at hspec
        simp only [] at hspec
        have hmem : ({ Operation := DeletePrinter, Printer := pg } :
            PrinterDiff) ∈ ds := List.mem_iff_getElem?.mpr ⟨i, hspec⟩
        have hcon : dirty = true := hdirty.mpr ⟨_, hmem, by simp⟩
        rw [hd0] at hcon
        cases hcon

/-- Concrete snapshots for the C2 witness: one local-only printer and
one remote-only printer. -/
def cw : Printer := { emptyPrinter with Name := "local1" }

def gw : Printer := { emptyPrinter with Name := "remote1" }

def rW : List PrinterDiff :=
  [{ Operation := DeletePrinter, Printer := gw },
   { Operation := RegisterPrinter, Printer := cw }]

/-- C2 witness: with local `[cw]` and remote `[gw]` (disjoint names),
the result's register diffs are exactly the one for `cw`, and position 0
holds the delete diff for `gw`. -/
theorem DiffPrinters_register_delete_witness :
    (rW.filter (fun d => d.Operation == RegisterPrinter) =
      ([cw].filter (fun p => decide (∀ q ∈ [gw], q.Name ≠ p.Name))).map
        (fun p => { Operation := RegisterPrinter, Printer := p }))
    ∧ rW[0]? = some { Operation := DeletePrinter, Printer := gw } := by
  have h := DiffPrinters_register_delete [cw] [gw] rW (by decide)
  exact ⟨h.1, h.2 0 gw (by decide)
    (fun j q hj _ => absurd hj (Nat.not_lt_zero j)) (by decide)⟩

/-! ## C4: duplicate remote records -/

/-- C4: in a completed run, every remote printer whose name already
occurred at an earlier remote position yields an unconditional
`Delete` diff at its own position — regardless of any field equality —
and the run is dirty (the result is non-empty); conversely only a first
occurrence of a name can ever produce an `Update` or `NoChange` diff. -/
theorem DiffPrinters_duplicate_remote (c g : List Printer)
    (r : List PrinterDiff) (h : DiffPrinters c g = .ok r) :
    (∀ (i : Nat) (pg : Printer), g[i]? = some pg →
      (∃ j, j < i ∧ ∃ q, g[j]? = some q ∧ q.Name = pg.Name) →
      r[i]? = some { Operation := DeletePrinter, Printer := pg } ∧ r ≠ [])
    ∧ (∀ (i : Nat) (pg : Printer) (d : PrinterDiff), g[i]? = some pg →
        r[i]? = some d →
        (d.Operation = UpdatePrinter ∨ d.Operation = NoChangeToPrinter) →
        ∀ (j : Nat) (q : Printer), j < i → g[j]? = some q →
          q.Name ≠ pg.Name) := by
  simp only [DiffPrinters] at h
  cases hrp : remotePass (printerSliceToMapByName c) g [] with
  | error e =>
    rw [hrp] at h
    simp only [] at h
    cases h
  | ok res =>
    obtain ⟨seen, dirty, ds⟩ := res
    rw [hrp] at h
    simp only [] at h
    obtain ⟨hlen, hseenm, hdirty, hidx⟩ :=
      remotePass_ok_spec (printerSliceToMapByName c) g [] seen dirty ds hrp
    constructor
    · intro i pg hgi hdup
      have hmem : pg.Name ∈ (g.take i).map (fun p => p.Name) :=
        (mem_take_map_iff g i pg.Name).mpr hdup
      have hspec := hidx i pg hgi
      rw [if_pos (Or.inr hmem)] at hspec
      have hdel_mem : ({ Operation := DeletePrinter, Printer := pg } :
          PrinterDiff) ∈ ds := List.mem_iff_getElem?.mpr ⟨i, hspec⟩
      have hd1 : dirty = true := hdirty.mpr ⟨_, hdel_mem, by simp⟩
      rw [hd1, Bool.true_or] at h
      rw [if_pos rfl] at h
      cases h
      obtain ⟨hilen, -⟩ := List.getElem?_eq_some_iff.mp hspec
      constructor
      · rw [List.getElem?_append_left hilen]
        exact hspec
      · intro hnil
        rw [List.append_eq_nil] at hnil
        rw [hnil.1] at hdel_mem
        cases hdel_mem
    · intro i pg d hgi hrd hop
      by_contra hcon
      push_neg at hcon
      obtain ⟨j, q, hj, hq, hqn⟩ := hcon
      have hmem : pg.Name ∈ (g.take i).map (fun p => p.Name) :=
        (mem_take_map_iff g i pg.Name).mpr ⟨j, hj, q, hq, hqn⟩
      have hspec := hidx i pg hgi
      rw [if_pos (Or.inr hmem)] at hspec
      by_cases hb : (dirty || !(localPass seen c).isEmpty) = true
      · rw [if_pos hb] at h
        cases h
        obtain ⟨hilen, -⟩ := List.getElem?_eq_some_iff.mp hspec
        rw [List.getElem?_append_left hilen, hspec] at hrd
        cases hrd
        rcases hop with hop | hop <;> simp at hop
      · rw [if_neg hb] at h
        cases h
        simp at hrd

/-- Concrete remote snapshot for the C4 witness: the same name twice,
no local printer. -/
def gw4 : Printer := { emptyPrinter with Name := "dup" }

def rW4 : List PrinterDiff :=
  [{ Operation := DeletePrinter, Printer := gw4 },
   { Operation := DeletePrinter, Printer := gw4 }]

/-- C4 witness: with remote `[gw4, gw4]` and no local printers, the
second occurrence yields an unconditional delete at position 1 and the
run is dirty. -/
theorem DiffPrinters_duplicate_remote_witness :
    rW4[1]? = some { Operation := DeletePrinter, Printer := gw4 } ∧
      rW4 ≠ [] := by
  have h := DiffPrinters_duplicate_remote [] [gw4, gw4] rW4 (by decide)
  exact h.1 1 gw4 (by decide) ⟨0, Nat.zero_lt_one, gw4, by decide, rfl⟩

/-! ## C5: reconciling a snapshot with itself -/

theorem remotePass_self (byName : String → Option Printer) :
    ∀ (S : List Printer) (seen : List String),
      (∀ p ∈ S, byName p.Name = some p) →
      (∀ p ∈ S, (tagsLookup p.Tags "tagshash").isSome) →
      (∀ p ∈ S, p.Name ∉ seen) →
      (S.map (fun p => p.Name)).Nodup →
      ∃ seen', remotePass byName S seen =
        .ok (seen', false,
          S.map (fun p => { Operation := NoChangeToPrinter, Printer := p })) := by
  intro S
  induction S with
  | nil =>
    intro seen _ _ _ _
    exact ⟨seen, rfl⟩
  | cons p rest ih =>
    intro seen hby htag hns hnd
    rw [List.map_cons, List.nodup_cons] at hnd
    obtain ⟨hpn, hnd'⟩ := hnd
    obtain ⟨seen', hrec⟩ := ih (p.Name :: seen)
      (fun q hq => hby q (List.mem_cons_of_mem p hq))
      (fun q hq => htag q (List.mem_cons_of_mem p hq))
      (fun q hq hqmem => by
        rcases List.mem_cons.mp hqmem with heq | hmem2
        · exact hpn (by
            rw [← heq]
            exact List.mem_map_of_mem (fun p => p.Name) hq)
        · exact hns q (List.mem_cons_of_mem p hq) hmem2)
      hnd'
    refine ⟨seen', ?_⟩
    simp only [remotePass]
    rw [if_neg (hns p (List.mem_cons_self p rest))]
    rw [hby p (List.mem_cons_self p rest)]
    simp only []
    rw [carryOver_self, diffPrinter_self (htag p (List.mem_cons_self p rest))]
    simp only []
    rw [hrec]
    simp

/-- C5 (amended): reconciling a snapshot with itself yields the empty
(`nil`) result, provided the snapshot's printer names are pairwise
distinct and every printer carries a `"tagshash"` tag (otherwise the
tags comparison of `diffPrinter` reports a change even between identical
records; see the counterexample). -/
theorem DiffPrinters_self_empty (S : List Printer)
    (h1 : (S.map (fun p => p.Name)).Nodup)
    (h2 : ∀ p ∈ S, (tagsLookup p.Tags "tagshash").isSome) :
    DiffPrinters S S = .ok [] := by
  obtain ⟨seen', hrp⟩ := remotePass_self (printerSliceToMapByName S) S []
    (byName_self h1) h2 (fun p _ hmem => List.not_mem_nil _ hmem) h1
  obtain ⟨-, hseenm, -, -⟩ :=
    remotePass_ok_spec (printerSliceToMapByName S) S [] seen' false _ hrp
  have hregs : localPass seen' S = [] := by
    rw [localPass_eq]
    have hfil : S.filter (fun p => !decide (p.Name ∈ seen')) = [] := by
      rw [List.filter_eq_nil_iff]
      intro p hp
      have hmem : p.Name ∈ seen' := (hseenm p.Name).mpr
        (Or.inr (List.mem_map_of_mem (fun p => p.Name) hp))
      simp [hmem]
    rw [hfil, List.map_nil]
  simp only [DiffPrinters, hrp]
  rw [hregs]
  simp

/-- A printer with no `"tagshash"` tag: `diffPrinter` on the identical
pair reports `TagsChanged`, making the run dirty. -/
def c5a : Printer := { emptyPrinter with Name := "a" }

/-- A well-formed printer (distinct name and a `"tagshash"` tag). -/
def c5b : Printer := { emptyPrinter with
  Name := "b"
  Tags := [("tagshash", "h")] }

/-- C5 counterexample: reconciling a snapshot with itself does NOT
always return the empty result — it fails for a snapshot whose printer
lacks the `"tagshash"` tag, and for a snapshot containing the same name
twice (duplicates are deleted even when identical). -/
theorem DiffPrinters_self_cex :
    DiffPrinters [c5a] [c5a] ≠ .ok [] ∧
    DiffPrinters [c5b, c5b] [c5b, c5b] ≠ .ok [] :=
  ⟨by decide, by decide⟩

/-- C5 witness: on the singleton snapshot `[c5b]` (distinct names,
`"tagshash"` present) self-reconciliation returns the empty result. -/
theorem DiffPrinters_self_empty_witness :
    DiffPrinters [c5b] [c5b] = .ok [] :=
  DiffPrinters_self_empty [c5b] (by decide) (by decide)

/-! ## The PPD cache (src/cups/ppdcache.go)

The cache's collaborators are repository code that is not under the
given sources: `cupsCore.getPPD` (the CUPS fetch, mutating the modtime
through a pointer) and `translatePPD` (the capability translator).  They
are modelled from the spec (§6): the fetch answers `Unchanged`, a fresh
document plus a new modification stamp, or an I/O error; the translator
is an arbitrary function producing a description pointer plus
manufacturer/model strings.  File-system side effects (the temporary
backing file) are I/O and folded into the fetch outcome. -/

/-- Modelled from the spec: one answer of the capability source
(`getCapabilityDocument(printerName, previousStamp) → Unchanged |
(documentBytes, newStamp)`, may fail with an I/O error).  The I/O errors
of copying the document to the backing file are folded into `ioError`. -/
inductive PPDFetchResult where
  | ioError (msg : String)
  | unchanged
  | changed (content : String) (newModtime : Nat)
deriving DecidableEq, Repr

/-- `ppdCacheEntry` (src/cups/ppdcache.go lines 110–118): the persistent
data of one cached printer.  The C string and temporary file name are
resource handles with no further observable content and are not
modelled; `modtime` (a `C.time_t`) is modelled as `Nat`. -/
structure PPDCacheEntry where
  printername  : String
  modtime      : Nat
  description  : PrinterDescriptionSection
  manufacturer : String
  model        : String
deriving DecidableEq, Repr

/-- `createPPDCacheEntry` (lines 123–138): name set, all else the zero
value.  The temporary-file creation failure is modelled by the oracle's
`createOk` flag at the call site. -/
def createPPDCacheEntry (name : String) : PPDCacheEntry :=
  { printername := name, modtime := 0, description := { val := "" },
    manufacturer := "", model := "" }

/-- `ppdCacheEntry.refresh` (lines 161–212).  The fetch outcome stands
for `cc.getPPD(pce.printername, &pce.modtime)`; on a fresh document the
stamp is updated through the pointer before translation runs, and the
translated fields are committed only when the translator yields a
non-nil description and non-empty manufacturer and model. -/
def refresh (tr : String → Option PrinterDescriptionSection × String × String)
    (fetch : PPDFetchResult) (pce : PPDCacheEntry) :
    Except String PPDCacheEntry :=
  match fetch with
  | .ioError msg => .error msg
  | .unchanged => .ok pce
  | .changed content newModtime =>
    let pce := { pce with modtime := newModtime }
    match tr content with
    | (none, _, _) => .error "Failed to parse PPD"
    | (some description, manufacturer, model) =>
      if manufacturer = "" || model = "" then
        .error "Failed to parse PPD"
      else
        .ok { pce with
          description := description
          manufacturer := manufacturer
          model := model }

/-- Lookup in the cache map `map[string]*ppdCacheEntry`, modelled as an
association list with unique keys. -/
def cacheLookup (cache : List (String × PPDCacheEntry)) (n : String) :
    Option PPDCacheEntry :=
  (cache.find? (fun kv => kv.1 == n)).map (fun kv => kv.2)

/-- `delete(pc.cache, printername)`. -/
def cacheErase (cache : List (String × PPDCacheEntry)) (n : String) :
    List (String × PPDCacheEntry) :=
  cache.filter (fun kv => kv.1 != n)

/-- `pc.cache[printername] = pce` (Go map assignment replaces). -/
def cacheInsert (cache : List (String × PPDCacheEntry)) (n : String)
    (e : PPDCacheEntry) : List (String × PPDCacheEntry) :=
  (n, e) :: cacheErase cache n

/-- `ppdCache.getPPDCacheEntry` (src/cups/ppdcache.go lines 71–107) for
one sequential lookup.  `oracle` fixes the outcomes of the two
side-effecting steps of this call: temporary-file creation (`createOk`)
and the CUPS fetch (`fetch`).  The returned pair is the new cache state
and the lookup result; `pce.free()` releases resources of entries that
are simultaneously removed from the state, so release is modelled by
removal. -/
def getPPDCacheEntry
    (tr : String → Option PrinterDescriptionSection × String × String)
    (createOk : Bool) (fetch : PPDFetchResult)
    (cache : List (String × PPDCacheEntry)) (printername : String) :
    List (String × PPDCacheEntry) ×
      Except String (PrinterDescriptionSection × String × String) :=
  match cacheLookup cache printername with
  | none =>
    if createOk then
      let pce := createPPDCacheEntry printername
      match refresh tr fetch pce with
      | .error e => (cache, .error e)
      | .ok pce' =>
        (cacheInsert cache printername pce',
         .ok (pce'.description, pce'.manufacturer, pce'.model))
    else
      (cache, .error "Failed to create PPD cache entry file")
  | some pce =>
    match refresh tr fetch pce with
    | .error e => (cacheErase cache printername, .error e)
    | .ok pce' =>
      (cacheInsert cache printername pce',
       .ok (pce'.description, pce'.manufacturer, pce'.model))

/-- An entry whose translated string fields were actually committed
(non-empty manufacturer and model, as checked by `refresh` before
committing). -/
def entryPopulated (e : PPDCacheEntry) : Prop :=
  e.manufacturer ≠ "" ∧ e.model ≠ ""

theorem cacheLookup_populated {cache : List (String × PPDCacheEntry)}
    {n : String} {e : PPDCacheEntry}
    (hwf : ∀ kv ∈ cache, entryPopulated kv.2)
    (h : cacheLookup cache n = some e) : entryPopulated e := by
  unfold cacheLookup at h
  cases hfind : cache.find? (fun kv => kv.1 == n) with
  | none =>
    rw [hfind] at h
    cases h
  | some kv =>
    rw [hfind] at h
    simp only [Option.map_some'] at h
    cases h
    exact hwf kv (List.mem_of_find?_eq_some hfind)

theorem cacheLookup_erase (cache : List (String × PPDCacheEntry))
    (n : String) : cacheLookup (cacheErase cache n) n = none := by
  unfold cacheLookup cacheErase
  cases hfind : (cache.filter (fun kv => kv.1 != n)).find?
      (fun kv => kv.1 == n) with
  | none => rfl
  | some kv =>
    exfalso
    have hne := (List.mem_filter.mp (List.mem_of_find?_eq_some hfind)).2
    have heq := List.find?_some hfind
    simp only [bne_iff_ne, ne_eq] at hne
    simp only [beq_iff_eq] at heq
    exact hne heq

theorem cacheErase_absent {cache : List (String × PPDCacheEntry)}
    {n : String} (h : cacheLookup cache n = none) :
    cacheErase cache n = cache := by
  unfold cacheLookup at h
  have hfind : cache.find? (fun kv => kv.1 == n) = none := by
    cases hf : cache.find? (fun kv => kv.1 == n) with
    | none => rfl
    | some kv =>
      rw [hf] at h
      cases h
  rw [List.find?_eq_none] at hfind
  unfold cacheErase
  rw [List.filter_eq_self]
  intro kv hkv
  have hne := hfind kv hkv
  simp only [beq_iff_eq] at hne
  simpa [bne_iff_ne] using hne

theorem cacheInsert_wf {cache : List (String × PPDCacheEntry)}
    {n : String} {e : PPDCacheEntry}
    (hwf : ∀ kv ∈ cache, entryPopulated kv.2) (he : entryPopulated e) :
    ∀ kv ∈ cacheInsert cache n e, entryPopulated kv.2 := by
  intro kv hkv
  rcases List.mem_cons.mp hkv with rfl | hkv'
  · exact he
  · exact hwf kv (List.mem_filter.mp hkv').1

/-- A successful `refresh` either left the entry untouched (the source
reported "unchanged") or committed a fully translated result. -/
theorem refresh_ok
    {tr : String → Option PrinterDescriptionSection × String × String}
    {fetch : PPDFetchResult} {pce pce' : PPDCacheEntry}
    (h : refresh tr fetch pce = .ok pce') :
    (fetch = .unchanged ∧ pce' = pce) ∨
      (pce'.manufacturer ≠ "" ∧ pce'.model ≠ "") := by
  cases fetch with
  | ioError msg => simp [refresh] at h
  | unchanged =>
    simp only [refresh] at h
    cases h
    exact Or.inl ⟨rfl, rfl⟩
  | changed content newModtime =>
    simp only [refresh] at h
    rcases htr : tr content with ⟨od, m, mo⟩
    rw [htr] at h
    cases od with
    | none => cases h
    | some dsc =>
      simp only [] at h
      split at h
      · cases h
      · cases h
        rename_i hguard
        rw [Bool.or_eq_true, not_or] at hguard
        obtain ⟨hm, hmo⟩ := hguard
        simp only [decide_eq_true_eq] at hm hmo
        exact Or.inr ⟨hm, hmo⟩

/-! ## C8: cache lookup contract -/

/-- C8: for one cache lookup — assuming every already-cached entry was
committed by a successful translation (`entryPopulated`, the invariant
this theorem re-establishes), and that the capability source reports
"unchanged" only for a printer that already has a cache entry — either
the lookup succeeds with non-empty manufacturer and model strings (and
the invariant still holds), or it fails and the new cache state is
exactly the old one with the entry for that printer removed (so nothing
is newly cached, no entry keeps data from the failed attempt, and the
failed printer's entry is gone). -/
theorem getPPDCacheEntry_contract
    (tr : String → Option PrinterDescriptionSection × String × String)
    (createOk : Bool) (fetch : PPDFetchResult)
    (cache cache' : List (String × PPDCacheEntry)) (name : String)
    (res : Except String (PrinterDescriptionSection × String × String))
    (h : getPPDCacheEntry tr createOk fetch cache name = (cache', res))
    (hwf : ∀ kv ∈ cache, entryPopulated kv.2)
    (hhonest : fetch = .unchanged → cacheLookup cache name ≠ none) :
    (∀ d m mo, res = .ok (d, m, mo) →
      m ≠ "" ∧ mo ≠ "" ∧ ∀ kv ∈ cache', entryPopulated kv.2)
    ∧ (∀ e, res = .error e →
        cache' = cacheErase cache name ∧ cacheLookup cache' name = none) := by
  simp only [getPPDCacheEntry] at h
  cases hlk : cacheLookup cache name with
  | none =>
    rw [hlk] at h
    simp only [] at h
    cases createOk with
    | false =>
      simp only [if_neg (by simp : ¬(false = true))] at h
      cases h
      refine ⟨?_, ?_⟩
      · intro d m mo heq
        cases heq
      · intro e _
        rw [cacheErase_absent hlk]
        exact ⟨rfl, by rw [← cacheErase_absent hlk]; exact cacheLookup_erase _ _⟩
    | true =>
      rw [if_pos rfl] at h
      cases hrf : refresh tr fetch (createPPDCacheEntry name) with
      | error e =>
        rw [hrf] at h
        simp only [] at h
        cases h
        refine ⟨?_, ?_⟩
        · intro d m mo heq
          cases heq
        · intro e2 _
          rw [cacheErase_absent hlk]
          exact ⟨rfl, by rw [← cacheErase_absent hlk]; exact cacheLookup_erase _ _⟩
      | ok pce' =>
        rw [hrf] at h
        simp only [] at h
        cases h
        have hpop : entryPopulated pce' := by
          rcases refresh_ok hrf with ⟨hu, -⟩ | hpop
          · exact absurd hlk (hhonest hu)
          · exact hpop
        refine ⟨?_, ?_⟩
        · intro d m mo heq
          cases heq
          exact ⟨hpop.1, hpop.2, cacheInsert_wf hwf hpop⟩
        · intro e heq
          cases heq
  | some pce =>
    rw [hlk] at h
    simp only [] at h
    cases hrf : refresh tr fetch pce with
    | error e =>
      rw [hrf] at h
      simp only [] at h
      cases h
      refine ⟨?_, ?_⟩
      · intro d m mo heq
        cases heq
      · intro e2 _
        exact ⟨rfl, cacheLookup_erase _ _⟩
    | ok pce' =>
      rw [hrf] at h
      simp only [] at h
      cases h
      have hpop : entryPopulated pce' := by
        rcases refresh_ok hrf with ⟨-, hpe⟩ | hpop
        · rw [hpe]
          exact cacheLookup_populated hwf hlk
        · exact hpop
      refine ⟨?_, ?_⟩
      · intro d m mo heq
        cases heq
        exact ⟨hpop.1, hpop.2, cacheInsert_wf hwf hpop⟩
      · intro e heq
        cases heq

/-- Concrete translator and fetch outcome for the C8 witness. -/
def trW : String → Option PrinterDescriptionSection × String × String :=
  fun content => (some { val := content }, "HP", "LaserJet 4")

/-- C8 witness: a fresh lookup of an uncached printer with a successful
fetch and translation succeeds with non-empty manufacturer and model,
and one lookup of a printer whose translation fails leaves the cache
without an entry for it. -/
theorem getPPDCacheEntry_contract_witness :
    ("HP" : String) ≠ "" ∧ ("LaserJet 4" : String) ≠ "" ∧
      (∀ kv ∈ (getPPDCacheEntry trW true (.changed "ppd" 5) [] "p1").1,
        entryPopulated kv.2) := by
  have h := getPPDCacheEntry_contract trW true (.changed "ppd" 5) []
    (getPPDCacheEntry trW true (.changed "ppd" 5) [] "p1").1 "p1"
    (getPPDCacheEntry trW true (.changed "ppd" 5) [] "p1").2
    rfl
    (fun kv hkv => absurd hkv (List.not_mem_nil kv))
    (fun hu => by cases hu)
  exact h.1 { val := "ppd" } "HP" "LaserJet 4" (by decide)

/-! ## C9: hostname extraction from the device-uri tag -/

/-- The accepted locator schemes of `rDeviceURIHostname`
(src/unnamed/part_000 lines 40–41), in the regex's alternation order. -/
def deviceURISchemes : List String :=
  ["socket", "http", "https", "ipp", "ipps", "lpd"]

/-- Go's regexp `(?i)` applies Unicode simple case folding.  The only
simple-fold orbits that reach the ASCII range `a`–`z` are the 26
`A`/`a` … `Z`/`z` pairs plus the two three-element orbits
`K`/`k`/U+212A (Kelvin sign) and `S`/`s`/U+017F (long s); digits, `.`,
`-`, `:` and `/` fold to themselves.  This maps every character to the
`a`–`z` representative of its orbit when the orbit has one
(`Char.toLower` lowers exactly `A`–`Z`), and is otherwise irrelevant to
the regex, whose literals and classes are all ASCII. -/
def foldChar (c : Char) : Char :=
  if c = Char.ofNat 0x212A then 'k'
  else if c = Char.ofNat 0x17F then 's'
  else c.toLower

/-- The character class `[a-z]` under the regex's `(?i)` flag: the
characters whose simple fold lands in `a`–`z`. -/
def isURILetter (c : Char) : Bool :=
  'a' ≤ foldChar c && foldChar c ≤ 'z'

/-- The character class `[a-z0-9.-]` under `(?i)`. -/
def isURIHostChar (c : Char) : Bool :=
  isURILetter c || c.isDigit || c == '.' || c == '-'

/-- The anchored match of `rDeviceURIHostname` against a device URI:
after case folding, the URI must begin with one of the accepted schemes
followed by `"://"` and a letter; the capture group is that letter
followed by the longest run of host characters, in the URI's original
case.  The six scheme prefixes are pairwise incompatible
(`scheme_prefix_unique` below), so taking the first match of the list
coincides with the regex's backtracking alternation. -/
def deviceURIHostname (uri : String) : Option String :=
  match deviceURISchemes.find?
      (fun s => (s ++ "://").data.isPrefixOf (uri.data.map foldChar)) with
  | none => none
  | some s =>
    match uri.data.drop (s ++ "://").length with
    | [] => none
    | c :: cs =>
      if isURILetter c then
        some (String.mk (c :: cs.takeWhile isURIHostChar))
      else
        none

/-- `Printer.GetHostname` (src/unnamed/part_000 lines 44–56): parse the
network hostname from `Tags["device-uri"]`; `("", false)` when the tag
is missing or the locator does not match. -/
def Printer.GetHostname (p : Printer) : String × Bool :=
  match tagsLookup p.Tags "device-uri" with
  | none => ("", false)
  | some deviceURI =>
    match deviceURIHostname deviceURI with
    | some host => (host, true)
    | none => ("", false)

theorem find?_eq_some_of_unique {α : Type} (l : List α) (p : α → Bool)
    (a : α) (ha : a ∈ l) (hp : p a = true)
    (huniq : ∀ b ∈ l, p b = true → b = a) : l.find? p = some a := by
  induction l with
  | nil => cases ha
  | cons x xs ih =>
    rcases List.mem_cons.mp ha with rfl | ha'
    · rw [List.find?_cons_of_pos _ hp]
    · by_cases hx : p x = true
      · rw [List.find?_cons_of_pos _ hx,
          huniq x (List.mem_cons_self x xs) hx]
      · rw [List.find?_cons_of_neg _ (by simp [hx])]
        exact ih ha' (fun b hb hpb => huniq b (List.mem_cons_of_mem x hb) hpb)

/-- Two prefixes of the same list never disagree at a common position. -/
theorem isPrefixOf_zip_conflict : ∀ (p1 p2 l : List Char),
    p1.isPrefixOf l = true → p2.isPrefixOf l = true →
    (p1.zip p2).any (fun ab => ab.1 != ab.2) = false := by
  intro p1
  induction p1 with
  | nil => intro p2 l _ _; rfl
  | cons a as ih =>
    intro p2 l h1 h2
    cases p2 with
    | nil => rfl
    | cons b bs =>
      cases l with
      | nil => cases h1
      | cons x xs =>
        simp only [List.isPrefixOf, Bool.and_eq_true] at h1 h2
        obtain ⟨ha, h1tail⟩ := h1
        obtain ⟨hb, h2tail⟩ := h2
        simp only [List.zip_cons_cons, List.any_cons]
        rw [Bool.or_eq_false_iff]
        refine ⟨?_, ih bs xs h1tail h2tail⟩
        simp only [beq_iff_eq] at ha hb
        simp [ha, hb]

/-- At most one accepted scheme (extended by `"://"`) can be a prefix of
a given lowercased URI. -/
theorem scheme_prefix_unique (low : List Char) :
    ∀ s1 ∈ deviceURISchemes, ∀ s2 ∈ deviceURISchemes,
      (s1 ++ "://").data.isPrefixOf low = true →
      (s2 ++ "://").data.isPrefixOf low = true → s1 = s2 := by
  intro s1 h1 s2 h2 hp1 hp2
  by_contra hne
  have hc : (((s1 ++ "://").data.zip ((s2 ++ "://").data)).any
      (fun ab => ab.1 != ab.2)) = true := by
    simp only [deviceURISchemes] at h1 h2
    fin_cases h1 <;> fin_cases h2 <;>
      first
        | exact absurd rfl hne
        | decide
  rw [isPrefixOf_zip_conflict _ _ _ hp1 hp2] at hc
  cases hc

/-- C9: `GetHostname` returns the host component exactly when the
`device-uri` tag is present and its value matches an accepted scheme
with a host: (1) tag absent → `("", false)`; (2) when the case-folded
locator begins with an accepted scheme followed by `"://"` and a
letter, the result is that letter plus the following run of host
characters (the host component, in the URI's original case) with
`true`; (3) in every other case for a present tag — no accepted scheme
prefix, or nothing or a non-letter after `"://"` — the result is
`("", false)`.  Concretely, `"ipp://printer.local:631/ipp/print"`
yields `"printer.local"`; `"usb://Vendor/Model"` and the numeric-host
`"ipp://192.168.0.1"` yield not-found; and `"socKet://x"` written with
the Kelvin sign U+212A matches by Unicode case folding and yields
`"x"`. -/
theorem GetHostname_spec :
    (∀ p : Printer, tagsLookup p.Tags "device-uri" = none →
      p.GetHostname = ("", false))
    ∧ (∀ (p : Printer) (uri s : String) (c : Char) (cs : List Char),
        tagsLookup p.Tags "device-uri" = some uri →
        s ∈ deviceURISchemes →
        (s ++ "://").data.isPrefixOf (uri.data.map foldChar) = true →
        uri.data.drop (s ++ "://").length = c :: cs →
        isURILetter c = true →
        p.GetHostname = (String.mk (c :: cs.takeWhile isURIHostChar), true))
    ∧ (∀ (p : Printer) (uri : String),
        tagsLookup p.Tags "device-uri" = some uri →
        (¬∃ s ∈ deviceURISchemes, ∃ (c : Char) (cs : List Char),
          (s ++ "://").data.isPrefixOf (uri.data.map foldChar) = true ∧
          uri.data.drop (s ++ "://").length = c :: cs ∧
          isURILetter c = true) →
        p.GetHostname = ("", false))
    ∧ (Printer.GetHostname { emptyPrinter with
        Tags := [("device-uri", "ipp://printer.local:631/ipp/print")] } =
          ("printer.local", true))
    ∧ (Printer.GetHostname { emptyPrinter with
        Tags := [("device-uri", "usb://Vendor/Model")] } = ("", false))
    ∧ (Printer.GetHostname { emptyPrinter with
        Tags := [("device-uri", "ipp://192.168.0.1")] } = ("", false))
    ∧ (Printer.GetHostname { emptyPrinter with
        Tags := [("device-uri", "soc\u212Aet://x")] } = ("x", true)) := by
  refine ⟨?_, ?_, ?_, ?_, ?_, ?_, ?_⟩
  · intro p h
    simp [Printer.GetHostname, h]
  · intro p uri s c cs hl hs hp hdrop hletter
    have hfind : deviceURISchemes.find?
        (fun s => (s ++ "://").data.isPrefixOf (uri.data.map foldChar)) =
          some s :=
      find?_eq_some_of_unique _ _ s hs hp
        (fun b hb hpb =>
          scheme_prefix_unique (uri.data.map foldChar) b hb s hs hpb hp)
    simp only [Printer.GetHostname, hl, deviceURIHostname, hfind, hdrop,
      hletter, if_pos]
  · intro p uri hl hno
    have hnone : deviceURIHostname uri = none := by
      unfold deviceURIHostname
      cases hfind : deviceURISchemes.find?
          (fun s => (s ++ "://").data.isPrefixOf (uri.data.map foldChar)) with
      | none => rfl
      | some s =>
        simp only []
        have hs := List.mem_of_find?_eq_some hfind
        have hps := List.find?_some hfind
        cases hdrop : uri.data.drop (s ++ "://").length with
        | nil => rfl
        | cons c cs =>
          simp only []
          have hcl : ¬(isURILetter c = true) :=
            fun hcl => hno ⟨s, hs, c, cs, hps, hdrop, hcl⟩
          rw [if_neg hcl]
    simp only [Printer.GetHostname, hl, hnone]
  · decide
  · decide
  · decide
  · decide

/-- Concrete printers for the C9 witness: a mixed-case ASCII locator,
and one whose scheme contains the Kelvin sign U+212A, exercising the
Unicode simple fold. -/
def pW9 : Printer := { emptyPrinter with
  Tags := [("device-uri", "IPP://Printer.Local")] }

def pW9k : Printer := { emptyPrinter with
  Tags := [("device-uri", "soc\u212Aet://x")] }

/-- C9 witness: the mixed-case locator `IPP://Printer.Local` yields the
host `Printer.Local`, and the Kelvin-sign locator yields `x`. -/
theorem GetHostname_spec_witness :
    Printer.GetHostname pW9 = ("Printer.Local", true) ∧
      Printer.GetHostname pW9k = ("x", true) := by
  constructor
  · have h := GetHostname_spec.2.1 pW9 "IPP://Printer.Local" "ipp" 'P'
      "rinter.Local".data (by decide) (by decide) (by decide) (by decide)
      (by decide)
    exact h.trans (by decide)
  · have h := GetHostname_spec.2.1 pW9k "soc\u212Aet://x" "socket" 'x' []
      (by decide) (by decide) (by decide) (by decide) (by decide)
    exact h.trans (by decide)
